import Mathlib

/-
Verification of the cache2go sharded, two-generation, time-expiring cache table.

The embedding translates cachetable.go (Add, Value) and cache.go (the periodic
cleanup cycle and the periodic full rebuild of the maintenance goroutine) into
pure Lean functions over an explicit table state.

Modelling conventions:
- Keys and payloads are type parameters (Go uses interface values); key
  equality is decidable equality on the key type.
- Timestamps and durations are Int (Go time.Time / time.Duration are int64
  nanosecond values).  The Go code compares durations through float64 seconds
  (Duration.Seconds); that conversion is strictly monotone at nanosecond
  granularity for all realistic durations, so the model compares the integer
  values directly with the same strict/non-strict orientation as the source.
- A Go shard map (map[interface{}]*CacheItem) is an association list in which
  insertion replaces any previous binding of the same key, exactly as a map
  assignment does.
- Goroutine interleaving is not modelled: each exported operation and each
  maintenance phase is one atomic step on the state, and the cleanup cycle is
  additionally decomposed into its phases, in source order, so that statements
  about intermediate modes and buffers can be made.
- The hasher (fnv64a) and the CacheItem constructor live in repository files
  that are not part of the provided sources; they are modelled from the spec
  where marked below.
-/

namespace Cache2go

/-- CacheItem. Modelled from the spec: the CacheItem record (its defining file
is not among the provided sources) holds the key, the payload, the creation
timestamp, the time-to-live and the hash of the serialized key, all fixed at
construction. Field names follow the Go source (createdOn, lifeSpan,
hashedKey). -/
structure CacheItem (κ δ : Type) where
  key : κ
  data : δ
  createdOn : Int
  lifeSpan : Int
  hashedKey : Nat
deriving DecidableEq, Repr

/-- NewCacheItem. Modelled from the spec: construct an item with
created_at = now and hashed_key = hash(serialize(key)); the hash function is
deterministic, so it is passed in as a plain function on keys. -/
def NewCacheItem {κ δ : Type} (hash : κ → Nat) (key : κ) (lifeSpan : Int)
    (data : δ) (now : Int) : CacheItem κ δ :=
  { key := key, data := data, createdOn := now, lifeSpan := lifeSpan,
    hashedKey := hash key }

/-- One shard backing map: type shard map[interface{}]*CacheItem, as an
association list with at most one live binding per key. -/
abbrev Shard (κ δ : Type) := List (κ × CacheItem κ δ)

/-- Map read r, ok := m[key]: the first (hence only) binding of the key. -/
def shardFind {κ δ : Type} [DecidableEq κ] (s : Shard κ δ) (key : κ) :
    Option (CacheItem κ δ) :=
  Option.map Prod.snd (s.find? (fun p => decide (p.1 = key)))

/-- Map write m[key] = item: replace any previous binding of the key. -/
def shardPut {κ δ : Type} [DecidableEq κ] (s : Shard κ δ) (key : κ)
    (item : CacheItem κ δ) : Shard κ δ :=
  (key, item) :: s.filter (fun p => decide (p.1 ≠ key))

/-- Map delete delete(m, key). -/
def shardErase {κ δ : Type} [DecidableEq κ] (s : Shard κ δ) (key : κ) :
    Shard κ δ :=
  s.filter (fun p => decide (p.1 ≠ key))

/-- The CacheTable state (cachetable.go): two generations of shards, the
pending write buffers l1BlockChan / l2BlockChan, the shard mask and the
cleanup mode word switchMask (0 = normal, 1 <<< 1 = draining generation A,
1 <<< 2 = draining generation B). The hasher is carried as a function. -/
structure CacheTable (κ δ : Type) where
  hash : κ → Nat
  L1Shards : List (Shard κ δ)
  L2Shards : List (Shard κ δ)
  shardMask : Nat
  l1BlockChan : List (CacheItem κ δ)
  l2BlockChan : List (CacheItem κ δ)
  switchMask : Nat

/-- Shard write of one item into a generation, as performed by Add and by the
pending-buffer reintegration: shards[item.hashedKey & shardMask].m[item.key]
= item. -/
def writeShard {κ δ : Type} [DecidableEq κ] (shards : List (Shard κ δ))
    (mask : Nat) (item : CacheItem κ δ) : List (Shard κ δ) :=
  shards.set (item.hashedKey &&& mask)
    (shardPut (shards.getD (item.hashedKey &&& mask) []) item.key item)

/-- Shard lookup of a key in a generation, as performed by Value:
shards[hashedKey & shardMask].m[key]. -/
def genFind {κ δ : Type} [DecidableEq κ] (shards : List (Shard κ δ))
    (mask : Nat) (hashedKey : Nat) (key : κ) : Option (CacheItem κ δ) :=
  shardFind (shards.getD (hashedKey &&& mask) []) key

/-- CacheTable.Add (cachetable.go lines 78 to 102): construct the item; if the
mode is not draining generation A, write it into its L1 shard, otherwise
append it to l1BlockChan; then the same for generation B with l2BlockChan;
return the item together with the updated table. -/
def CacheTable.Add {κ δ : Type} [DecidableEq κ] (table : CacheTable κ δ)
    (key : κ) (lifeSpan : Int) (data : δ) (now : Int) :
    CacheItem κ δ × CacheTable κ δ :=
  let item := NewCacheItem table.hash key lifeSpan data now
  let t1 :=
    if table.switchMask ≠ 1 <<< 1 then
      { table with L1Shards := writeShard table.L1Shards table.shardMask item }
    else
      { table with l1BlockChan := table.l1BlockChan ++ [item] }
  let t2 :=
    if t1.switchMask ≠ 1 <<< 2 then
      { t1 with L2Shards := writeShard t1.L2Shards t1.shardMask item }
    else
      { t1 with l2BlockChan := t1.l2BlockChan ++ [item] }
  (item, t2)

/-- Result of Value: either the found item (r, nil) or the
(nil, ErrKeyNotFound) outcome; ErrKeyNotFound is the only error the source
ever returns from Value. -/
inductive ValueResult (κ δ : Type) where
  | ok (r : CacheItem κ δ)
  | errKeyNotFound
deriving DecidableEq, Repr

/-- CacheTable.Value (cachetable.go lines 104 to 161): hash the key; in mode
1 >>> 1 (normal) look the key up in generation A and then, on a miss, in
generation B; in mode 1 <<< 1 (draining A) read only generation B; otherwise
(draining B) read only generation A; a miss in every consulted generation is
ErrKeyNotFound. The source performs no expiry check on this path. -/
def CacheTable.Value {κ δ : Type} [DecidableEq κ] (table : CacheTable κ δ)
    (key : κ) : ValueResult κ δ :=
  let hashedKey := table.hash key
  if table.switchMask = 1 >>> 1 then
    match shardFind (table.L1Shards.getD (hashedKey &&& table.shardMask) []) key with
    | some r => ValueResult.ok r
    | none =>
      match shardFind (table.L2Shards.getD (hashedKey &&& table.shardMask) []) key with
      | some r => ValueResult.ok r
      | none => ValueResult.errKeyNotFound
  else if table.switchMask = 1 <<< 1 then
    match shardFind (table.L2Shards.getD (hashedKey &&& table.shardMask) []) key with
    | some r => ValueResult.ok r
    | none => ValueResult.errKeyNotFound
  else
    match shardFind (table.L1Shards.getD (hashedKey &&& table.shardMask) []) key with
    | some r => ValueResult.ok r
    | none => ValueResult.errKeyNotFound

/-- One shard scan of the cleanup cycle (cache.go lines 106 to 117 and 156 to
167): collect every item whose age at the snapshot exceeds its lifeSpan. -/
def collectExpiredShard {κ δ : Type} (now : Int) (s : Shard κ δ) :
    List (CacheItem κ δ) :=
  (s.filter (fun p => decide (now - p.2.createdOn > p.2.lifeSpan))).map Prod.snd

/-- The whole-generation scan building the cleanup deleteList, shard by
shard. -/
def collectExpired {κ δ : Type} (now : Int) (shards : List (Shard κ δ)) :
    List (CacheItem κ δ) :=
  (shards.map (collectExpiredShard now)).flatten

/-- The cleanup deletion pass (cache.go lines 120 to 124 and 171 to 175):
delete every collected item from the shard its hash routes it to. -/
def deleteItems {κ δ : Type} [DecidableEq κ] (shards : List (Shard κ δ))
    (mask : Nat) (deleteList : List (CacheItem κ δ)) : List (Shard κ δ) :=
  deleteList.foldl
    (fun sh item =>
      sh.set (item.hashedKey &&& mask)
        (shardErase (sh.getD (item.hashedKey &&& mask) []) item.key))
    shards

/-- Mode assignment t.switchMask = 1 << 1 at the start of a cleanup or rebuild
cycle (cache.go lines 91 and 207). -/
def setDrainingA {κ δ : Type} (t : CacheTable κ δ) : CacheTable κ δ :=
  { t with switchMask := 1 <<< 1 }

/-- Mode assignment t.switchMask = 1 << 2 between the two generation passes
(cache.go lines 130 and 236). -/
def setDrainingB {κ δ : Type} (t : CacheTable κ δ) : CacheTable κ δ :=
  { t with switchMask := 1 <<< 2 }

/-- Mode assignment t.switchMask = 1 >> 1 at the end of a cycle (cache.go
lines 179 and 259). -/
def setNormal {κ δ : Type} (t : CacheTable κ δ) : CacheTable κ δ :=
  { t with switchMask := 1 >>> 1 }

/-- Generation-A sweep of the cleanup cycle (cache.go lines 105 to 125): scan
all L1 shards against the cycle snapshot and delete what was collected. -/
def sweepL1 {κ δ : Type} [DecidableEq κ] (t : CacheTable κ δ) (now : Int) :
    CacheTable κ δ :=
  { t with L1Shards :=
      deleteItems t.L1Shards t.shardMask (collectExpired now t.L1Shards) }

/-- Generation-B sweep of the cleanup cycle (cache.go lines 155 to 176). -/
def sweepL2 {κ δ : Type} [DecidableEq κ] (t : CacheTable κ δ) (now : Int) :
    CacheTable κ δ :=
  { t with L2Shards :=
      deleteItems t.L2Shards t.shardMask (collectExpired now t.L2Shards) }

/-- Reintegration of l1BlockChan into generation A and reset of the buffer
(cache.go lines 133 to 144); the source skips nil entries, which the model
cannot contain, since only constructed items are ever appended. -/
def reintegrateL1 {κ δ : Type} [DecidableEq κ] (t : CacheTable κ δ) :
    CacheTable κ δ :=
  { t with
    L1Shards := t.l1BlockChan.foldl
      (fun sh item => writeShard sh t.shardMask item) t.L1Shards,
    l1BlockChan := [] }

/-- Reintegration of l2BlockChan into generation B and reset of the buffer
(cache.go lines 183 to 196). -/
def reintegrateL2 {κ δ : Type} [DecidableEq κ] (t : CacheTable κ δ) :
    CacheTable κ δ :=
  { t with
    L2Shards := t.l2BlockChan.foldl
      (fun sh item => writeShard sh t.shardMask item) t.L2Shards,
    l2BlockChan := [] }

/-- One full cleanup cycle, phases in source order (cache.go lines 84 to 199):
set draining A, sweep L1, set draining B, reintegrate l1BlockChan, sweep L2,
set normal, reintegrate l2BlockChan. The snapshot now is taken once and used
by both sweeps, as in the source. -/
def cleanupCycle {κ δ : Type} [DecidableEq κ] (t : CacheTable κ δ)
    (now : Int) : CacheTable κ δ :=
  reintegrateL2 (setNormal (sweepL2 (reintegrateL1 (setDrainingB
    (sweepL1 (setDrainingA t) now))) now))

/-- One shard of the periodic full rebuild (cache.go lines 221 to 232 and 245
to 256): the backing map is rebuilt from scratch keeping exactly the entries
with now - createdOn < lifeSpan (note the strict less-than in the source). -/
def rebuildShard {κ δ : Type} (now : Int) (s : Shard κ δ) : Shard κ δ :=
  s.filter (fun p => decide (now - p.2.createdOn < p.2.lifeSpan))

/-- One full rebuild cycle (cache.go lines 201 to 266): set draining A,
rebuild every L1 shard, set draining B, rebuild every L2 shard, set normal.
The rebuild branch touches neither pending buffer. -/
def rebuildCycle {κ δ : Type} [DecidableEq κ] (t : CacheTable κ δ)
    (now : Int) : CacheTable κ δ :=
  setNormal
    ({ setDrainingB ({ setDrainingA t with
        L1Shards := (setDrainingA t).L1Shards.map (rebuildShard now) }) with
      L2Shards := t.L2Shards.map (rebuildShard now) })

/-- Sequence of switchMask values observable after each phase of one cleanup
cycle, in source order, starting with the value before the cycle. -/
def cleanupModeTrace {κ δ : Type} [DecidableEq κ] (t : CacheTable κ δ)
    (now : Int) : List Nat :=
  let p1 := setDrainingA t
  let p2 := sweepL1 p1 now
  let p3 := setDrainingB p2
  let p4 := reintegrateL1 p3
  let p5 := sweepL2 p4 now
  let p6 := setNormal p5
  let p7 := reintegrateL2 p6
  [t.switchMask, p1.switchMask, p2.switchMask, p3.switchMask,
   p4.switchMask, p5.switchMask, p6.switchMask, p7.switchMask]

/-- Fresh table as built by Cache (cache.go lines 60 to 72): shardNum empty
shards per generation, shardMask = shardNum - 1, zero-valued switchMask and
empty pending buffers. -/
def initTable {κ δ : Type} (hash : κ → Nat) (shardNum : Nat) :
    CacheTable κ δ :=
  { hash := hash,
    L1Shards := List.replicate shardNum [],
    L2Shards := List.replicate shardNum [],
    shardMask := shardNum - 1,
    l1BlockChan := [],
    l2BlockChan := [],
    switchMask := 0 }

/-- Sequential operations on a table: the caller-facing Add and the two
maintenance cycles of the background goroutine. -/
inductive CacheOp (κ δ : Type) where
  | add (key : κ) (lifeSpan : Int) (data : δ) (now : Int)
  | cleanup (now : Int)
  | rebuild (now : Int)

/-- Apply one operation to the table state. -/
def applyOp {κ δ : Type} [DecidableEq κ] (t : CacheTable κ δ) :
    CacheOp κ δ → CacheTable κ δ
  | CacheOp.add key lifeSpan data now => (t.Add key lifeSpan data now).2
  | CacheOp.cleanup now => cleanupCycle t now
  | CacheOp.rebuild now => rebuildCycle t now

/-- Run a sequence of operations from a starting state. -/
def runOps {κ δ : Type} [DecidableEq κ] (t : CacheTable κ δ)
    (ops : List (CacheOp κ δ)) : CacheTable κ δ :=
  ops.foldl applyOp t

end Cache2go

namespace Cache2go

section Lemmas

variable {κ δ : Type} [DecidableEq κ]

theorem getD_set {α : Type _} (l : List α) (i j : Nat) (a d : α) :
    (l.set i a).getD j d = if i = j ∧ i < l.length then a else l.getD j d := by
  rw [List.getD_eq_getElem?_getD, List.getElem?_set, List.getD_eq_getElem?_getD]
  by_cases hij : i = j
  · subst hij
    by_cases hlen : i < l.length
    · simp [hlen]
    · simp [hlen, List.getElem?_eq_none (Nat.le_of_not_lt hlen)]
  · simp [hij]

theorem shardFind_shardPut_self (s : Shard κ δ) (k : κ) (it : CacheItem κ δ) :
    shardFind (shardPut s k it) k = some it := by
  simp [shardFind, shardPut, List.find?_cons]

theorem find?_filter_ne (s : Shard κ δ) (k k2 : κ) (h : ¬ k = k2) :
    (s.filter (fun p => decide (p.1 ≠ k2))).find? (fun p => decide (p.1 = k))
      = s.find? (fun p => decide (p.1 = k)) := by
  induction s with
  | nil => rfl
  | cons p rest ih =>
    by_cases hp : p.1 = k2
    · have hk2 : ¬ p.1 = k := fun hh => h (hh ▸ hp)
      have e1 : decide (p.1 ≠ k2) = false := by simp [hp]
      have e2 : decide (p.1 = k) = false := by simp [hk2]
      rw [List.filter_cons, List.find?_cons, e1, e2]
      simpa using ih
    · have e1 : decide (p.1 ≠ k2) = true := by simp [hp]
      rw [List.filter_cons, e1, if_pos rfl, List.find?_cons, List.find?_cons]
      cases hd : decide (p.1 = k) with
      | true => rfl
      | false => exact ih

theorem shardFind_shardPut_ne (s : Shard κ δ) (k k2 : κ) (it : CacheItem κ δ)
    (h : ¬ k = k2) : shardFind (shardPut s k2 it) k = shardFind s k := by
  have hne : ¬ k2 = k := fun e => h e.symm
  unfold shardFind shardPut
  rw [List.find?_cons]
  simp only [hne, decide_False]
  rw [find?_filter_ne s k k2 h]

theorem shardFind_shardErase_self (s : Shard κ δ) (k : κ) :
    shardFind (shardErase s k) k = none := by
  unfold shardFind shardErase
  rw [Option.map_eq_none']
  rw [List.find?_eq_none]
  intro x hx
  have hxmem := List.mem_filter.mp hx
  simp only [decide_eq_true_eq] at hxmem ⊢
  exact hxmem.2

theorem shardFind_shardErase_ne (s : Shard κ δ) (k k2 : κ) (h : ¬ k = k2) :
    shardFind (shardErase s k2) k = shardFind s k := by
  unfold shardFind shardErase
  rw [find?_filter_ne s k k2 h]

theorem shardFind_filter_none (s : Shard κ δ) (k : κ)
    (q : κ × CacheItem κ δ → Bool) (h : shardFind s k = none) :
    shardFind (s.filter q) k = none := by
  unfold shardFind at h ⊢
  rw [Option.map_eq_none'] at h ⊢
  rw [List.find?_eq_none] at h ⊢
  intro x hx
  exact h x (List.mem_of_mem_filter hx)

theorem length_writeShard (shards : List (Shard κ δ)) (mask : Nat)
    (it : CacheItem κ δ) : (writeShard shards mask it).length = shards.length := by
  unfold writeShard
  exact List.length_set shards _ _

theorem genFind_writeShard_self (shards : List (Shard κ δ)) (mask : Nat)
    (it : CacheItem κ δ) (h : it.hashedKey &&& mask < shards.length) :
    genFind (writeShard shards mask it) mask it.hashedKey it.key = some it := by
  unfold genFind writeShard
  rw [getD_set, if_pos ⟨rfl, h⟩]
  exact shardFind_shardPut_self _ _ _

theorem genFind_writeShard_ne (shards : List (Shard κ δ)) (mask hk : Nat)
    (k : κ) (it : CacheItem κ δ) (h : ¬ k = it.key) :
    genFind (writeShard shards mask it) mask hk k = genFind shards mask hk k := by
  unfold genFind writeShard
  rw [getD_set]
  split
  · next hc =>
    rw [shardFind_shardPut_ne _ _ _ _ h, hc.1]
  · rfl

theorem genFind_eraseStep_none (sh : List (Shard κ δ)) (mask hk : Nat)
    (k : κ) (it : CacheItem κ δ) (h : genFind sh mask hk k = none) :
    genFind (sh.set (it.hashedKey &&& mask)
      (shardErase (sh.getD (it.hashedKey &&& mask) []) it.key)) mask hk k = none := by
  unfold genFind at h ⊢
  rw [getD_set]
  split
  · next hc =>
    apply shardFind_filter_none
    rw [hc.1]
    exact h
  · exact h

theorem deleteItems_cons (sh : List (Shard κ δ)) (mask : Nat)
    (it : CacheItem κ δ) (rest : List (CacheItem κ δ)) :
    deleteItems sh mask (it :: rest)
      = deleteItems (sh.set (it.hashedKey &&& mask)
          (shardErase (sh.getD (it.hashedKey &&& mask) []) it.key)) mask rest := rfl

theorem length_deleteItems (sh : List (Shard κ δ)) (mask : Nat)
    (dl : List (CacheItem κ δ)) : (deleteItems sh mask dl).length = sh.length := by
  induction dl generalizing sh with
  | nil => rfl
  | cons it rest ih =>
    rw [deleteItems_cons, ih, List.length_set]

theorem genFind_deleteItems_none_preserved (sh : List (Shard κ δ))
    (mask hk : Nat) (k : κ) (dl : List (CacheItem κ δ))
    (h : genFind sh mask hk k = none) :
    genFind (deleteItems sh mask dl) mask hk k = none := by
  induction dl generalizing sh with
  | nil => exact h
  | cons it rest ih =>
    rw [deleteItems_cons]
    exact ih _ (genFind_eraseStep_none sh mask hk k it h)

theorem genFind_deleteItems_none (sh : List (Shard κ δ)) (mask hk : Nat)
    (k : κ) (it : CacheItem κ δ) (dl : List (CacheItem κ δ))
    (hmem : it ∈ dl) (hkey : it.key = k)
    (hidx : it.hashedKey &&& mask = hk &&& mask)
    (hrange : hk &&& mask < sh.length) :
    genFind (deleteItems sh mask dl) mask hk k = none := by
  induction dl generalizing sh with
  | nil => cases hmem
  | cons b rest ih =>
    rcases List.mem_cons.mp hmem with hb | hb
    · subst hb
      rw [deleteItems_cons]
      apply genFind_deleteItems_none_preserved
      unfold genFind
      rw [getD_set, if_pos ⟨hidx, hidx ▸ hrange⟩, hkey]
      exact shardFind_shardErase_self _ _
    · rw [deleteItems_cons]
      exact ih _ hb (by rw [List.length_set]; exact hrange)

theorem genFind_reintegrate_none (sh : List (Shard κ δ)) (mask hk : Nat)
    (k : κ) (buf : List (CacheItem κ δ)) (hbuf : ∀ b ∈ buf, ¬ k = b.key)
    (h : genFind sh mask hk k = none) :
    genFind (buf.foldl (fun s b => writeShard s mask b) sh) mask hk k = none := by
  induction buf generalizing sh with
  | nil => exact h
  | cons b rest ih =>
    rw [List.foldl_cons]
    refine ih _ (fun x hx => hbuf x (List.mem_cons_of_mem _ hx)) ?_
    rw [genFind_writeShard_ne _ _ _ _ _ (hbuf b (List.mem_cons_self _ _))]
    exact h

theorem genFind_reintegrate_keep (sh : List (Shard κ δ)) (mask : Nat)
    (it : CacheItem κ δ) (buf : List (CacheItem κ δ))
    (hwf : ∀ b ∈ buf, b.hashedKey &&& mask < sh.length)
    (huniq : ∀ b ∈ buf, b.key = it.key → b = it)
    (h : genFind sh mask it.hashedKey it.key = some it) :
    genFind (buf.foldl (fun s b => writeShard s mask b) sh) mask
      it.hashedKey it.key = some it := by
  induction buf generalizing sh with
  | nil => exact h
  | cons b rest ih =>
    rw [List.foldl_cons]
    refine ih _ (fun x hx => ?_) (fun x hx => huniq x (List.mem_cons_of_mem _ hx)) ?_
    · rw [length_writeShard]
      exact hwf x (List.mem_cons_of_mem _ hx)
    · by_cases hb : b.key = it.key
      · have hbe : b = it := huniq b (List.mem_cons_self _ _) hb
        rw [hbe]
        exact genFind_writeShard_self _ _ _ (hbe ▸ hwf b (List.mem_cons_self _ _))
      · rw [genFind_writeShard_ne _ _ _ _ _ (fun e => hb e.symm)]
        exact h

theorem genFind_reintegrate_mem (sh : List (Shard κ δ)) (mask : Nat)
    (it : CacheItem κ δ) (buf : List (CacheItem κ δ))
    (hwf : ∀ b ∈ buf, b.hashedKey &&& mask < sh.length)
    (hmem : it ∈ buf)
    (huniq : ∀ b ∈ buf, b.key = it.key → b = it) :
    genFind (buf.foldl (fun s b => writeShard s mask b) sh) mask
      it.hashedKey it.key = some it := by
  induction buf generalizing sh with
  | nil => cases hmem
  | cons b rest ih =>
    rw [List.foldl_cons]
    rcases List.mem_cons.mp hmem with hb | hb
    · subst hb
      refine genFind_reintegrate_keep _ _ _ _ (fun x hx => ?_)
        (fun x hx => huniq x (List.mem_cons_of_mem _ hx)) ?_
      · rw [length_writeShard]
        exact hwf x (List.mem_cons_of_mem _ hx)
      · exact genFind_writeShard_self _ _ _ (hwf it (List.mem_cons_self _ _))
    · refine ih _ (fun x hx => ?_) hb (fun x hx => huniq x (List.mem_cons_of_mem _ hx))
      rw [length_writeShard]
      exact hwf x (List.mem_cons_of_mem _ hx)

omit [DecidableEq κ] in
theorem mem_collectExpired (shards : List (Shard κ δ)) (now : Int) (i : Nat)
    (k : κ) (it : CacheItem κ δ) (hi : i < shards.length)
    (hmem : (k, it) ∈ shards.getD i [])
    (hexp : now - it.createdOn > it.lifeSpan) :
    it ∈ collectExpired now shards := by
  unfold collectExpired
  rw [List.mem_flatten]
  refine ⟨collectExpiredShard now (shards.getD i []), ?_, ?_⟩
  · rw [List.mem_map]
    refine ⟨shards.getD i [], ?_, rfl⟩
    rw [List.getD_eq_getElem?_getD, List.getElem?_eq_getElem hi]
    exact List.getElem_mem hi
  · unfold collectExpiredShard
    rw [List.mem_map]
    refine ⟨(k, it), ?_, rfl⟩
    rw [List.mem_filter]
    exact ⟨hmem, by simpa using hexp⟩

end Lemmas

end Cache2go

namespace Cache2go

section Characterizations

variable {κ δ : Type} [DecidableEq κ]

theorem shiftR_one : (1 : Nat) >>> 1 = 0 := rfl

theorem shiftL_one : (1 : Nat) <<< 1 = 2 := rfl

theorem shiftL_two : (1 : Nat) <<< 2 = 4 := rfl

theorem Add_fst (t : CacheTable κ δ) (k : κ) (ls : Int) (v : δ) (now : Int) :
    (t.Add k ls v now).1 = NewCacheItem t.hash k ls v now := rfl

theorem Add_snd_mode0 (t : CacheTable κ δ) (k : κ) (ls : Int) (v : δ)
    (now : Int) (hm : t.switchMask = 0) :
    (t.Add k ls v now).2 =
      { t with
        L1Shards := writeShard t.L1Shards t.shardMask (NewCacheItem t.hash k ls v now),
        L2Shards := writeShard t.L2Shards t.shardMask (NewCacheItem t.hash k ls v now) } := by
  unfold CacheTable.Add
  simp [hm]

theorem Add_snd_mode2 (t : CacheTable κ δ) (k : κ) (ls : Int) (v : δ)
    (now : Int) (hm : t.switchMask = 2) :
    (t.Add k ls v now).2 =
      { t with
        l1BlockChan := t.l1BlockChan ++ [NewCacheItem t.hash k ls v now],
        L2Shards := writeShard t.L2Shards t.shardMask (NewCacheItem t.hash k ls v now) } := by
  unfold CacheTable.Add
  simp [hm]

theorem Add_snd_mode4 (t : CacheTable κ δ) (k : κ) (ls : Int) (v : δ)
    (now : Int) (hm : t.switchMask = 4) :
    (t.Add k ls v now).2 =
      { t with
        L1Shards := writeShard t.L1Shards t.shardMask (NewCacheItem t.hash k ls v now),
        l2BlockChan := t.l2BlockChan ++ [NewCacheItem t.hash k ls v now] } := by
  unfold CacheTable.Add
  simp [hm]

theorem Value_mode0 (t : CacheTable κ δ) (k : κ) (hm : t.switchMask = 0) :
    t.Value k =
      match genFind t.L1Shards t.shardMask (t.hash k) k with
      | some r => ValueResult.ok r
      | none =>
        match genFind t.L2Shards t.shardMask (t.hash k) k with
        | some r => ValueResult.ok r
        | none => ValueResult.errKeyNotFound := by
  unfold CacheTable.Value genFind
  simp [hm]

theorem Value_mode2 (t : CacheTable κ δ) (k : κ) (hm : t.switchMask = 2) :
    t.Value k =
      match genFind t.L2Shards t.shardMask (t.hash k) k with
      | some r => ValueResult.ok r
      | none => ValueResult.errKeyNotFound := by
  unfold CacheTable.Value genFind
  simp [hm]

theorem Value_modeOther (t : CacheTable κ δ) (k : κ)
    (hm0 : ¬ t.switchMask = 0) (hm2 : ¬ t.switchMask = 2) :
    t.Value k =
      match genFind t.L1Shards t.shardMask (t.hash k) k with
      | some r => ValueResult.ok r
      | none => ValueResult.errKeyNotFound := by
  unfold CacheTable.Value genFind
  simp [shiftR_one, shiftL_one, hm0, hm2]

theorem cleanupCycle_eq (t : CacheTable κ δ) (now : Int) :
    cleanupCycle t now =
      { t with
        switchMask := 0,
        L1Shards := t.l1BlockChan.foldl
          (fun sh item => writeShard sh t.shardMask item)
          (deleteItems t.L1Shards t.shardMask (collectExpired now t.L1Shards)),
        L2Shards := t.l2BlockChan.foldl
          (fun sh item => writeShard sh t.shardMask item)
          (deleteItems t.L2Shards t.shardMask (collectExpired now t.L2Shards)),
        l1BlockChan := [],
        l2BlockChan := [] } := rfl

theorem rebuildCycle_eq (t : CacheTable κ δ) (now : Int) :
    rebuildCycle t now =
      { t with
        switchMask := 0,
        L1Shards := t.L1Shards.map (rebuildShard now),
        L2Shards := t.L2Shards.map (rebuildShard now) } := rfl

omit [DecidableEq κ] in
theorem getD_map_rebuild (shards : List (Shard κ δ)) (now : Int) (i : Nat) :
    (shards.map (rebuildShard now)).getD i [] = rebuildShard now (shards.getD i []) := by
  rw [List.getD_eq_getElem?_getD, List.getD_eq_getElem?_getD, List.getElem?_map]
  cases shards[i]? <;> rfl

theorem shardFind_eq_some_iff_mem (s : Shard κ δ) (k : κ) (r : CacheItem κ δ)
    (hnd : (s.map Prod.fst).Nodup) :
    shardFind s k = some r ↔ (k, r) ∈ s := by
  induction s with
  | nil => simp [shardFind]
  | cons q rest ih =>
    rw [List.map_cons, List.nodup_cons] at hnd
    by_cases hq : q.1 = k
    · have hfind : shardFind (q :: rest) k = some q.2 := by
        unfold shardFind
        rw [List.find?_cons]
        simp [hq]
      rw [hfind]
      constructor
      · intro he
        have hbr : q.2 = r := by injection he
        have hqe : (k, r) = q := by
          calc (k, r) = (q.1, q.2) := by rw [hq, hbr]
          _ = q := Prod.mk.eta
        rw [hqe]
        exact List.mem_cons_self _ _
      · intro hmem
        rcases List.mem_cons.mp hmem with he | he
        · rw [← he]
        · exfalso
          apply hnd.1
          rw [hq]
          exact List.mem_map_of_mem Prod.fst he
    · have hfind : shardFind (q :: rest) k = shardFind rest k := by
        unfold shardFind
        rw [List.find?_cons]
        simp [hq]
      rw [hfind, ih hnd.2]
      constructor
      · exact fun h => List.mem_cons_of_mem _ h
      · intro hmem
        rcases List.mem_cons.mp hmem with he | he
        · exfalso
          exact hq (congrArg Prod.fst he).symm
        · exact he

theorem shardFind_rebuildShard (s : Shard κ δ) (now : Int) (k : κ)
    (r : CacheItem κ δ) (hnd : (s.map Prod.fst).Nodup) :
    shardFind (rebuildShard now s) k = some r ↔
      (shardFind s k = some r ∧ now - r.createdOn < r.lifeSpan) := by
  have hnd2 : ((rebuildShard now s).map Prod.fst).Nodup :=
    ((List.filter_sublist s).map Prod.fst).nodup hnd
  rw [shardFind_eq_some_iff_mem _ _ _ hnd2, shardFind_eq_some_iff_mem _ _ _ hnd]
  unfold rebuildShard
  rw [List.mem_filter]
  simp

omit [DecidableEq κ] in
theorem getD_mem_or_nil (l : List (Shard κ δ)) (i : Nat) :
    l.getD i [] ∈ l ∨ l.getD i [] = [] := by
  rw [List.getD_eq_getElem?_getD]
  by_cases h : i < l.length
  · left
    rw [List.getElem?_eq_getElem h]
    exact List.getElem_mem h
  · right
    rw [List.getElem?_eq_none (Nat.le_of_not_lt h)]
    rfl

theorem shardFind_eq_some (s : Shard κ δ) (k : κ) (r : CacheItem κ δ)
    (h : shardFind s k = some r) : ∃ p ∈ s, p.1 = k ∧ p.2 = r := by
  unfold shardFind at h
  cases hf : s.find? (fun p => decide (p.1 = k)) with
  | none => rw [hf] at h; cases h
  | some p =>
    rw [hf] at h
    refine ⟨p, List.mem_of_find?_eq_some hf, ?_, by simpa using h⟩
    have hp := List.find?_some hf
    simpa using hp

end Characterizations

end Cache2go

namespace Cache2go

/-- C1 counterexample: Value performs no expiry check. After Add of key 0 with
lifespan 1 at time 0, the item is expired at time 100 (its age 100 exceeds
lifespan 1) and has not been swept, yet Value returns it instead of
ErrKeyNotFound. -/
theorem value_expired_returned_cex :
    ((initTable (fun k => k) 1 : CacheTable Nat Nat).Add 0 1 7 0).2.Value 0
        = ValueResult.ok
            { key := 0, data := 7, createdOn := 0, lifeSpan := 1, hashedKey := 0 }
    ∧ (100 : Int) - 0 > 1 :=
  ⟨by decide, by decide⟩

/-- C1 (amended): the read path enforces no expiration. Whenever the lookup
dictated by the current mode finds an item, Value returns that item, even when
its age at the current time already exceeds its lifespan; expiry is enforced
only by the cleanup sweep. -/
theorem value_no_expiry_check {κ δ : Type} [DecidableEq κ]
    (t : CacheTable κ δ) (k : κ) (r : CacheItem κ δ) (now : Int)
    (_hexp : now - r.createdOn > r.lifeSpan)
    (hfound :
      (t.switchMask = 0 ∧ (genFind t.L1Shards t.shardMask (t.hash k) k = some r
          ∨ (genFind t.L1Shards t.shardMask (t.hash k) k = none
             ∧ genFind t.L2Shards t.shardMask (t.hash k) k = some r)))
      ∨ (t.switchMask = 2 ∧ genFind t.L2Shards t.shardMask (t.hash k) k = some r)
      ∨ (¬ t.switchMask = 0 ∧ ¬ t.switchMask = 2
         ∧ genFind t.L1Shards t.shardMask (t.hash k) k = some r)) :
    t.Value k = ValueResult.ok r := by
  rcases hfound with ⟨hm, h1 | ⟨h1, h2⟩⟩ | ⟨hm, h2⟩ | ⟨hm0, hm2, h1⟩
  · rw [Value_mode0 t k hm, h1]
  · rw [Value_mode0 t k hm, h1, h2]
  · rw [Value_mode2 t k hm, h2]
  · rw [Value_modeOther t k hm0 hm2, h1]

/-- C1 witness: the amended theorem applied to a concrete expired, unswept
item. -/
theorem value_no_expiry_check_witness :
    ((initTable (fun k => k) 1 : CacheTable Nat Nat).Add 3 1 7 0).2.Value 3
      = ValueResult.ok
          { key := 3, data := 7, createdOn := 0, lifeSpan := 1, hashedKey := 3 } :=
  value_no_expiry_check _ 3 _ 100 (by decide) (Or.inl ⟨by decide, Or.inl (by decide)⟩)

/-- C2 counterexample: within one cleanup cycle started from Normal the
de-stuttered mode trace is 0, 2, 4, 0 (Normal, DrainingA, DrainingB, Normal):
the mode moves straight from draining generation A to draining generation B,
never passing through Normal in between, so the claimed visit order
0, 2, 0, 4, 0 is wrong. -/
theorem cleanup_mode_trace_cex :
    ((cleanupModeTrace (initTable (fun k => k) 1 : CacheTable Nat Nat) 0).destutter (· ≠ ·)
        = [0, 2, 4, 0])
    ∧ ([0, 2, 4, 0] : List Nat) ≠ [0, 2, 0, 4, 0] :=
  ⟨by decide, by decide⟩

/-- C2 (amended): started from Normal, one cleanup cycle visits exactly the
modes Normal, DrainingA, DrainingB, Normal, in that order; the mode is not
reset to Normal between the generation-A drain and the generation-B drain. -/
theorem cleanup_mode_order {κ δ : Type} [DecidableEq κ] (t : CacheTable κ δ)
    (now : Int) (hmode : t.switchMask = 0) :
    (cleanupModeTrace t now).destutter (· ≠ ·) = [0, 2, 4, 0] := by
  have htrace : cleanupModeTrace t now = [0, 2, 2, 4, 4, 4, 0, 0] := by
    unfold cleanupModeTrace
    simp [setDrainingA, setDrainingB, setNormal, sweepL1, sweepL2,
      reintegrateL1, reintegrateL2, shiftL_one, shiftL_two, shiftR_one, hmode]
  rw [htrace]
  decide

/-- C2 witness: the amended mode order at a concrete table. -/
theorem cleanup_mode_order_witness :
    (cleanupModeTrace (initTable (fun k => k) 2 : CacheTable Nat Nat) 5).destutter (· ≠ ·)
      = [0, 2, 4, 0] :=
  cleanup_mode_order _ 5 rfl

/-- C3: in every mode of the table (Normal, DrainingA, DrainingB), Value
performed directly after Add of a key with positive lifespan returns the
freshly inserted item, and that item carries the given payload. -/
theorem add_value_roundtrip {κ δ : Type} [DecidableEq κ] (t : CacheTable κ δ)
    (k : κ) (ls : Int) (v : δ) (now : Int)
    (hwf1 : t.L1Shards.length = t.shardMask + 1)
    (hwf2 : t.L2Shards.length = t.shardMask + 1)
    (_hls : 0 < ls)
    (hmode : t.switchMask = 0 ∨ t.switchMask = 2 ∨ t.switchMask = 4) :
    (t.Add k ls v now).2.Value k = ValueResult.ok (t.Add k ls v now).1
    ∧ (t.Add k ls v now).1.data = v := by
  refine ⟨?_, rfl⟩
  have hr1 : (NewCacheItem t.hash k ls v now).hashedKey &&& t.shardMask
      < t.L1Shards.length := by
    rw [hwf1]; exact Nat.lt_succ_of_le Nat.and_le_right
  have hr2 : (NewCacheItem t.hash k ls v now).hashedKey &&& t.shardMask
      < t.L2Shards.length := by
    rw [hwf2]; exact Nat.lt_succ_of_le Nat.and_le_right
  have hfind1 := genFind_writeShard_self t.L1Shards t.shardMask
    (NewCacheItem t.hash k ls v now) hr1
  have hfind2 := genFind_writeShard_self t.L2Shards t.shardMask
    (NewCacheItem t.hash k ls v now) hr2
  dsimp only [NewCacheItem] at hfind1 hfind2
  rcases hmode with hm | hm | hm
  · rw [Add_fst, Add_snd_mode0 t k ls v now hm]
    rw [Value_mode0]
    · dsimp only [NewCacheItem]
      rw [hfind1]
    · exact hm
  · rw [Add_fst, Add_snd_mode2 t k ls v now hm]
    rw [Value_mode2]
    · dsimp only [NewCacheItem]
      rw [hfind2]
    · exact hm
  · rw [Add_fst, Add_snd_mode4 t k ls v now hm]
    rw [Value_modeOther]
    · dsimp only [NewCacheItem]
      rw [hfind1]
    · simp [hm]
    · simp [hm]

/-- C3 witness at a concrete table in Normal mode. -/
theorem add_value_roundtrip_witness :
    ((initTable (fun k => k) 2 : CacheTable Nat Nat).Add 5 10 77 0).2.Value 5
      = ValueResult.ok ((initTable (fun k => k) 2 : CacheTable Nat Nat).Add 5 10 77 0).1
    ∧ ((initTable (fun k => k) 2 : CacheTable Nat Nat).Add 5 10 77 0).1.data = 77 :=
  add_value_roundtrip _ 5 10 77 0 (by decide) (by decide) (by decide)
    (Or.inl (by decide))

end Cache2go

namespace Cache2go

/-- Sweep effect on one generation: if an item was just written into a
generation and is expired at the cycle snapshot, then after the scan-collect,
deletion and buffer reintegration of one cleanup cycle (the buffer holding no
entry for that key) its key resolves to nothing in that generation. -/
theorem genFind_sweep_after_write {κ δ : Type} [DecidableEq κ]
    (shards : List (Shard κ δ)) (mask : Nat) (item : CacheItem κ δ)
    (buf : List (CacheItem κ δ)) (now : Int)
    (hlen : shards.length = mask + 1)
    (hbuf : ∀ b ∈ buf, ¬ item.key = b.key)
    (hexp : now - item.createdOn > item.lifeSpan) :
    genFind (buf.foldl (fun sh b => writeShard sh mask b)
        (deleteItems (writeShard shards mask item) mask
          (collectExpired now (writeShard shards mask item)))) mask
      item.hashedKey item.key = none := by
  have hi0 : item.hashedKey &&& mask < shards.length := by
    rw [hlen]; exact Nat.lt_succ_of_le Nat.and_le_right
  have hi : item.hashedKey &&& mask < (writeShard shards mask item).length := by
    rw [length_writeShard]; exact hi0
  apply genFind_reintegrate_none _ _ _ _ _ hbuf
  apply genFind_deleteItems_none _ _ _ _ item _ _ rfl rfl hi
  apply mem_collectExpired _ now (item.hashedKey &&& mask) item.key item hi _ hexp
  unfold writeShard
  rw [getD_set, if_pos ⟨rfl, hi0⟩]
  exact List.mem_cons_self _ _

/-- C4: after Add in Normal mode, once the cleanup snapshot time exceeds the
insertion time by more than the lifespan, one complete cleanup cycle removes
the entry from both generations (the pending buffers holding no entry for the
key), and Value then reports ErrKeyNotFound. -/
theorem cleanup_removes_expired {κ δ : Type} [DecidableEq κ]
    (t : CacheTable κ δ) (k : κ) (ls : Int) (v : δ) (tAdd now : Int)
    (hwf1 : t.L1Shards.length = t.shardMask + 1)
    (hwf2 : t.L2Shards.length = t.shardMask + 1)
    (hmode : t.switchMask = 0)
    (hbuf1 : ∀ b ∈ t.l1BlockChan, ¬ b.key = k)
    (hbuf2 : ∀ b ∈ t.l2BlockChan, ¬ b.key = k)
    (hexp : now - tAdd > ls) :
    (cleanupCycle (t.Add k ls v tAdd).2 now).Value k
      = ValueResult.errKeyNotFound := by
  have h1 : ∀ b ∈ t.l1BlockChan, ¬ (NewCacheItem t.hash k ls v tAdd).key = b.key :=
    fun b hb e => hbuf1 b hb e.symm
  have h2 : ∀ b ∈ t.l2BlockChan, ¬ (NewCacheItem t.hash k ls v tAdd).key = b.key :=
    fun b hb e => hbuf2 b hb e.symm
  have hL1 := genFind_sweep_after_write t.L1Shards t.shardMask
    (NewCacheItem t.hash k ls v tAdd) t.l1BlockChan now hwf1 h1 hexp
  have hL2 := genFind_sweep_after_write t.L2Shards t.shardMask
    (NewCacheItem t.hash k ls v tAdd) t.l2BlockChan now hwf2 h2 hexp
  dsimp only [NewCacheItem] at hL1 hL2
  rw [Add_snd_mode0 t k ls v tAdd hmode, cleanupCycle_eq]
  rw [Value_mode0]
  · dsimp only [NewCacheItem]
    rw [hL1, hL2]
  · rfl

/-- C4 witness: a concrete expired entry is gone from both generations after
one cleanup cycle. -/
theorem cleanup_removes_expired_witness :
    (cleanupCycle ((initTable (fun k => k) 2 : CacheTable Nat Nat).Add 5 10 77 0).2 100).Value 5
      = ValueResult.errKeyNotFound :=
  cleanup_removes_expired _ 5 10 77 0 100 (by decide) (by decide) rfl
    (by decide) (by decide) (by decide)

/-- C5: Value consults exactly the generations dictated by the mode: Normal
reads generation A and, only on a miss there, generation B, returning the
first hit; DrainingA is served exclusively from generation B; DrainingB
exclusively from generation A; in each case the result is ErrKeyNotFound
exactly when every consulted lookup misses. -/
theorem value_consults_by_mode {κ δ : Type} [DecidableEq κ]
    (t : CacheTable κ δ) (k : κ) :
    (t.switchMask = 0 →
      t.Value k =
        match genFind t.L1Shards t.shardMask (t.hash k) k with
        | some r => ValueResult.ok r
        | none =>
          match genFind t.L2Shards t.shardMask (t.hash k) k with
          | some r => ValueResult.ok r
          | none => ValueResult.errKeyNotFound)
    ∧ (t.switchMask = 2 →
      t.Value k =
        match genFind t.L2Shards t.shardMask (t.hash k) k with
        | some r => ValueResult.ok r
        | none => ValueResult.errKeyNotFound)
    ∧ (t.switchMask = 4 →
      t.Value k =
        match genFind t.L1Shards t.shardMask (t.hash k) k with
        | some r => ValueResult.ok r
        | none => ValueResult.errKeyNotFound) :=
  ⟨fun hm => Value_mode0 t k hm, fun hm => Value_mode2 t k hm,
   fun hm => Value_modeOther t k (by rw [hm]; decide) (by rw [hm]; decide)⟩

/-- C5 witness: in DrainingA mode a key present only in generation A is not
served: the read consults generation B exclusively and misses. -/
theorem value_consults_by_mode_witness :
    CacheTable.Value
      (⟨fun k => k, [[(0, ⟨0, 7, 0, 5, 0⟩)]], [[]], 0, [], [], 2⟩ : CacheTable Nat Nat) 0
      = ValueResult.errKeyNotFound := by
  rw [(value_consults_by_mode
      (⟨fun k => k, [[(0, ⟨0, 7, 0, 5, 0⟩)]], [[]], 0, [], [], 2⟩ : CacheTable Nat Nat) 0).2.1 rfl]
  decide

/-- C6: during DrainingA, Add performs no write into any generation-A shard:
the item goes to the pending buffer while generation B still gets the direct
shard write; symmetrically during DrainingB; and the reintegration step after
a drain's sweep writes every buffered item into its shard of the drained
generation and clears the buffer. -/
theorem drain_diverts_writes {κ δ : Type} [DecidableEq κ]
    (t : CacheTable κ δ) (k : κ) (ls : Int) (v : δ) (now : Int)
    (hwf1 : t.L1Shards.length = t.shardMask + 1)
    (hwf2 : t.L2Shards.length = t.shardMask + 1) :
    (t.switchMask = 2 →
        (t.Add k ls v now).2.L1Shards = t.L1Shards
      ∧ (t.Add k ls v now).2.l1BlockChan = t.l1BlockChan ++ [(t.Add k ls v now).1]
      ∧ (t.Add k ls v now).2.L2Shards
          = writeShard t.L2Shards t.shardMask (t.Add k ls v now).1)
    ∧ (t.switchMask = 4 →
        (t.Add k ls v now).2.L2Shards = t.L2Shards
      ∧ (t.Add k ls v now).2.l2BlockChan = t.l2BlockChan ++ [(t.Add k ls v now).1]
      ∧ (t.Add k ls v now).2.L1Shards
          = writeShard t.L1Shards t.shardMask (t.Add k ls v now).1)
    ∧ ((reintegrateL1 t).l1BlockChan = []
      ∧ ∀ it ∈ t.l1BlockChan, (∀ b ∈ t.l1BlockChan, b.key = it.key → b = it) →
          genFind (reintegrateL1 t).L1Shards t.shardMask it.hashedKey it.key = some it)
    ∧ ((reintegrateL2 t).l2BlockChan = []
      ∧ ∀ it ∈ t.l2BlockChan, (∀ b ∈ t.l2BlockChan, b.key = it.key → b = it) →
          genFind (reintegrateL2 t).L2Shards t.shardMask it.hashedKey it.key = some it) := by
  refine ⟨fun hm => ?_, fun hm => ?_, ⟨rfl, fun it hmem huniq => ?_⟩,
    ⟨rfl, fun it hmem huniq => ?_⟩⟩
  · rw [Add_snd_mode2 t k ls v now hm, Add_fst]
    exact ⟨rfl, rfl, rfl⟩
  · rw [Add_snd_mode4 t k ls v now hm, Add_fst]
    exact ⟨rfl, rfl, rfl⟩
  · exact genFind_reintegrate_mem t.L1Shards t.shardMask it t.l1BlockChan
      (fun b _ => by rw [hwf1]; exact Nat.lt_succ_of_le Nat.and_le_right) hmem huniq
  · exact genFind_reintegrate_mem t.L2Shards t.shardMask it t.l2BlockChan
      (fun b _ => by rw [hwf2]; exact Nat.lt_succ_of_le Nat.and_le_right) hmem huniq

/-- C6 witness: a concrete item buffered during a drain is in its
generation-A shard after reintegration. -/
theorem drain_diverts_writes_witness :
    genFind (reintegrateL1
        (⟨fun k => k, [[]], [[]], 0, [⟨9, 1, 0, 5, 9⟩], [], 2⟩ : CacheTable Nat Nat)).L1Shards
      0 9 9 = some ⟨9, 1, 0, 5, 9⟩ :=
  (drain_diverts_writes
      (⟨fun k => k, [[]], [[]], 0, [⟨9, 1, 0, 5, 9⟩], [], 2⟩ : CacheTable Nat Nat)
      0 1 0 0 (by decide) (by decide)).2.2.1.2 ⟨9, 1, 0, 5, 9⟩ (by decide) (by decide)

end Cache2go

namespace Cache2go

/-- C7 counterexample: the rebuild keeps only entries with age strictly below
the lifespan. A concrete entry whose age exactly equals its lifespan is not
yet expired (expiry requires age strictly above the lifespan), yet the
rebuild removes it, so the claim that such an entry is retained is wrong. -/
theorem rebuild_drops_boundary_cex :
    ((rebuildCycle
        (⟨fun k => k, [[(0, ⟨0, 7, 0, 5, 0⟩)]], [[(0, ⟨0, 7, 0, 5, 0⟩)]], 0, [], [], 0⟩
          : CacheTable Nat Nat) 5).L1Shards = [[]])
    ∧ ¬ ((5 : Int) - 0 > 5) :=
  ⟨by decide, by decide⟩

/-- C7 (amended): after a full rebuild, each shard of both generations
contains exactly the previously present entries whose age at the rebuild
snapshot is strictly below their lifespan: every expired entry is gone, and an
entry whose age exactly equals its lifespan is removed as well, although it is
not yet expired. -/
theorem rebuild_keeps_strictly_young {κ δ : Type} [DecidableEq κ]
    (t : CacheTable κ δ) (now : Int) (i : Nat) (k : κ) (r : CacheItem κ δ)
    (hnd1 : ((t.L1Shards.getD i []).map Prod.fst).Nodup)
    (hnd2 : ((t.L2Shards.getD i []).map Prod.fst).Nodup) :
    (shardFind ((rebuildCycle t now).L1Shards.getD i []) k = some r
      ↔ (shardFind (t.L1Shards.getD i []) k = some r ∧ now - r.createdOn < r.lifeSpan))
    ∧ (shardFind ((rebuildCycle t now).L2Shards.getD i []) k = some r
      ↔ (shardFind (t.L2Shards.getD i []) k = some r ∧ now - r.createdOn < r.lifeSpan)) := by
  rw [rebuildCycle_eq]
  dsimp only
  rw [getD_map_rebuild, getD_map_rebuild]
  exact ⟨shardFind_rebuildShard _ _ _ _ hnd1, shardFind_rebuildShard _ _ _ _ hnd2⟩

/-- C7 witness: a strictly younger entry survives a concrete rebuild. -/
theorem rebuild_keeps_strictly_young_witness :
    shardFind ((rebuildCycle
        (⟨fun k => k, [[(0, ⟨0, 7, 0, 5, 0⟩)]], [[]], 0, [], [], 0⟩
          : CacheTable Nat Nat) 3).L1Shards.getD 0 []) 0
      = some ⟨0, 7, 0, 5, 0⟩ :=
  (rebuild_keeps_strictly_young
      (⟨fun k => k, [[(0, ⟨0, 7, 0, 5, 0⟩)]], [[]], 0, [], [], 0⟩ : CacheTable Nat Nat)
      3 0 0 ⟨0, 7, 0, 5, 0⟩ (by decide) (by decide)).1.mpr ⟨by decide, by decide⟩

/-- Predicate read off the branch structure of the read path: every generation
the current mode consults misses the key. -/
def consultedMiss {κ δ : Type} [DecidableEq κ] (t : CacheTable κ δ) (k : κ) : Prop :=
  if t.switchMask = 1 >>> 1 then
    genFind t.L1Shards t.shardMask (t.hash k) k = none
    ∧ genFind t.L2Shards t.shardMask (t.hash k) k = none
  else if t.switchMask = 1 <<< 1 then
    genFind t.L2Shards t.shardMask (t.hash k) k = none
  else
    genFind t.L1Shards t.shardMask (t.hash k) k = none

/-- C8: Add never fails: it returns exactly the constructed item, with no
error channel; and the only non-success outcome of Value is the returned
ErrKeyNotFound value, produced exactly when the key misses every generation
the current mode consults. -/
theorem add_value_failure_semantics {κ δ : Type} [DecidableEq κ]
    (t : CacheTable κ δ) (k : κ) (ls : Int) (v : δ) (now : Int) :
    (t.Add k ls v now).1 = NewCacheItem t.hash k ls v now
    ∧ ((∃ r, t.Value k = ValueResult.ok r) ∨ t.Value k = ValueResult.errKeyNotFound)
    ∧ (t.Value k = ValueResult.errKeyNotFound ↔ consultedMiss t k) := by
  refine ⟨rfl, ?_, ?_⟩
  · by_cases hm0 : t.switchMask = 0
    · rw [Value_mode0 t k hm0]
      cases genFind t.L1Shards t.shardMask (t.hash k) k with
      | some r => exact Or.inl ⟨r, rfl⟩
      | none =>
        cases genFind t.L2Shards t.shardMask (t.hash k) k with
        | some r => exact Or.inl ⟨r, rfl⟩
        | none => exact Or.inr rfl
    · by_cases hm2 : t.switchMask = 2
      · rw [Value_mode2 t k hm2]
        cases genFind t.L2Shards t.shardMask (t.hash k) k with
        | some r => exact Or.inl ⟨r, rfl⟩
        | none => exact Or.inr rfl
      · rw [Value_modeOther t k hm0 hm2]
        cases genFind t.L1Shards t.shardMask (t.hash k) k with
        | some r => exact Or.inl ⟨r, rfl⟩
        | none => exact Or.inr rfl
  · by_cases hm0 : t.switchMask = 0
    · rw [Value_mode0 t k hm0]
      unfold consultedMiss
      rw [if_pos (by rw [hm0]; rfl)]
      cases hα : genFind t.L1Shards t.shardMask (t.hash k) k with
      | some r => simp
      | none =>
        cases hβ : genFind t.L2Shards t.shardMask (t.hash k) k with
        | some r => simp
        | none => simp
    · by_cases hm2 : t.switchMask = 2
      · rw [Value_mode2 t k hm2]
        unfold consultedMiss
        rw [if_neg (by rw [hm2]; decide), if_pos (by rw [hm2]; rfl)]
        cases hβ : genFind t.L2Shards t.shardMask (t.hash k) k with
        | some r => simp
        | none => simp
      · rw [Value_modeOther t k hm0 hm2]
        unfold consultedMiss
        rw [if_neg (by rw [shiftR_one]; exact hm0), if_neg (by rw [shiftL_one]; exact hm2)]
        cases hα : genFind t.L1Shards t.shardMask (t.hash k) k with
        | some r => simp
        | none => simp

end Cache2go

namespace Cache2go

/-- One operation preserves the quiescent state: Normal mode, empty pending
buffers and literally equal generations. -/
theorem mirror_applyOp {κ δ : Type} [DecidableEq κ] (t : CacheTable κ δ)
    (op : CacheOp κ δ) (hm : t.switchMask = 0) (hb1 : t.l1BlockChan = [])
    (hb2 : t.l2BlockChan = []) (heq : t.L1Shards = t.L2Shards) :
    (applyOp t op).switchMask = 0 ∧ (applyOp t op).l1BlockChan = []
    ∧ (applyOp t op).l2BlockChan = []
    ∧ (applyOp t op).L1Shards = (applyOp t op).L2Shards := by
  cases op with
  | add k ls v now =>
    have he : applyOp t (CacheOp.add k ls v now) = (t.Add k ls v now).2 := rfl
    rw [he, Add_snd_mode0 t k ls v now hm]
    exact ⟨hm, hb1, hb2, by rw [heq]⟩
  | cleanup now =>
    have he : applyOp t (CacheOp.cleanup now) = cleanupCycle t now := rfl
    rw [he, cleanupCycle_eq]
    refine ⟨rfl, rfl, rfl, ?_⟩
    dsimp only
    rw [hb1, hb2, heq]
  | rebuild now =>
    have he : applyOp t (CacheOp.rebuild now) = rebuildCycle t now := rfl
    rw [he, rebuildCycle_eq]
    exact ⟨rfl, hb1, hb2, by dsimp only; rw [heq]⟩

/-- C9: starting from a fresh table, after any sequence of adds, complete
cleanup cycles and complete rebuild cycles, the table is in Normal mode with
both pending buffers empty, and generations A and B hold exactly the same
shard contents: every add writes the same item to both generations, and a
cycle removes the same expired set from both using one shared snapshot. -/
theorem generations_mirror {κ δ : Type} [DecidableEq κ] (hash : κ → Nat)
    (shardNum : Nat) (ops : List (CacheOp κ δ)) :
    (runOps (initTable hash shardNum) ops).switchMask = 0
    ∧ (runOps (initTable hash shardNum) ops).l1BlockChan = []
    ∧ (runOps (initTable hash shardNum) ops).l2BlockChan = []
    ∧ (runOps (initTable hash shardNum) ops).L1Shards
        = (runOps (initTable hash shardNum) ops).L2Shards := by
  suffices h : ∀ t : CacheTable κ δ, t.switchMask = 0 → t.l1BlockChan = [] →
      t.l2BlockChan = [] → t.L1Shards = t.L2Shards →
      (runOps t ops).switchMask = 0 ∧ (runOps t ops).l1BlockChan = []
      ∧ (runOps t ops).l2BlockChan = []
      ∧ (runOps t ops).L1Shards = (runOps t ops).L2Shards by
    exact h _ rfl rfl rfl rfl
  induction ops with
  | nil => exact fun t h1 h2 h3 h4 => ⟨h1, h2, h3, h4⟩
  | cons op rest ih =>
    intro t h1 h2 h3 h4
    have hstep := mirror_applyOp t op h1 h2 h3 h4
    exact ih (applyOp t op) hstep.1 hstep.2.1 hstep.2.2.1 hstep.2.2.2

end Cache2go

namespace Cache2go

/-- Binding discipline of the shard maps: every entry binds an item under that
item's own key field, as every write in the source is m[item.key] = item. -/
def KeysCoherent {κ δ : Type} (t : CacheTable κ δ) : Prop :=
  (∀ s ∈ t.L1Shards, ∀ p ∈ s, (p : κ × CacheItem κ δ).2.key = p.1)
  ∧ (∀ s ∈ t.L2Shards, ∀ p ∈ s, (p : κ × CacheItem κ δ).2.key = p.1)

section Coherence

variable {κ δ : Type} [DecidableEq κ]

theorem coherent_writeShard (shards : List (Shard κ δ)) (mask : Nat)
    (item : CacheItem κ δ)
    (h : ∀ s ∈ shards, ∀ p ∈ s, (p : κ × CacheItem κ δ).2.key = p.1) :
    ∀ s ∈ writeShard shards mask item, ∀ p ∈ s, p.2.key = p.1 := by
  intro s hs p hp
  rcases List.mem_or_eq_of_mem_set hs with hs2 | hs2
  · exact h s hs2 p hp
  · subst hs2
    rcases List.mem_cons.mp hp with he | he
    · rw [he]
    · have hmem := List.mem_of_mem_filter he
      rcases getD_mem_or_nil shards (item.hashedKey &&& mask) with hg | hg
      · exact h _ hg p hmem
      · rw [hg] at hmem
        exact absurd hmem (List.not_mem_nil p)

theorem coherent_foldl_writeShard (shards : List (Shard κ δ)) (mask : Nat)
    (buf : List (CacheItem κ δ))
    (h : ∀ s ∈ shards, ∀ p ∈ s, (p : κ × CacheItem κ δ).2.key = p.1) :
    ∀ s ∈ buf.foldl (fun sh b => writeShard sh mask b) shards, ∀ p ∈ s,
      p.2.key = p.1 := by
  induction buf generalizing shards with
  | nil => exact h
  | cons b rest ih =>
    rw [List.foldl_cons]
    exact ih _ (coherent_writeShard shards mask b h)

theorem coherent_deleteItems (shards : List (Shard κ δ)) (mask : Nat)
    (dl : List (CacheItem κ δ))
    (h : ∀ s ∈ shards, ∀ p ∈ s, (p : κ × CacheItem κ δ).2.key = p.1) :
    ∀ s ∈ deleteItems shards mask dl, ∀ p ∈ s, p.2.key = p.1 := by
  induction dl generalizing shards with
  | nil => exact h
  | cons it rest ih =>
    rw [deleteItems_cons]
    refine ih _ (fun s hs p hp => ?_)
    rcases List.mem_or_eq_of_mem_set hs with hs2 | hs2
    · exact h s hs2 p hp
    · subst hs2
      have hmem := List.mem_of_mem_filter hp
      rcases getD_mem_or_nil shards (it.hashedKey &&& mask) with hg | hg
      · exact h _ hg p hmem
      · rw [hg] at hmem
        exact absurd hmem (List.not_mem_nil p)

omit [DecidableEq κ] in
theorem coherent_map_rebuild (shards : List (Shard κ δ)) (now : Int)
    (h : ∀ s ∈ shards, ∀ p ∈ s, (p : κ × CacheItem κ δ).2.key = p.1) :
    ∀ s ∈ shards.map (rebuildShard now), ∀ p ∈ s, p.2.key = p.1 := by
  intro s hs p hp
  rcases List.mem_map.mp hs with ⟨s0, hs0, he⟩
  rw [← he] at hp
  exact h s0 hs0 p (List.mem_of_mem_filter hp)

theorem Add_snd_other (t : CacheTable κ δ) (k : κ) (ls : Int) (v : δ)
    (now : Int) (hm1 : t.switchMask ≠ 1 <<< 1) (hm2 : t.switchMask ≠ 1 <<< 2) :
    (t.Add k ls v now).2 =
      { t with
        L1Shards := writeShard t.L1Shards t.shardMask (NewCacheItem t.hash k ls v now),
        L2Shards := writeShard t.L2Shards t.shardMask (NewCacheItem t.hash k ls v now) } := by
  rw [shiftL_one] at hm1
  rw [shiftL_two] at hm2
  unfold CacheTable.Add
  simp [hm1, hm2]

theorem keysCoherent_applyOp (t : CacheTable κ δ) (op : CacheOp κ δ)
    (h : KeysCoherent t) : KeysCoherent (applyOp t op) := by
  obtain ⟨h1, h2⟩ := h
  cases op with
  | add k ls v now =>
    have he : applyOp t (CacheOp.add k ls v now) = (t.Add k ls v now).2 := rfl
    by_cases c1 : t.switchMask ≠ 1 <<< 1
    · by_cases c2 : t.switchMask ≠ 1 <<< 2
      · rw [he, Add_snd_other t k ls v now c1 c2]
        exact ⟨coherent_writeShard _ _ _ h1, coherent_writeShard _ _ _ h2⟩
      · rw [not_not] at c2
        rw [he, Add_snd_mode4 t k ls v now (by rw [c2]; rfl)]
        exact ⟨coherent_writeShard _ _ _ h1, h2⟩
    · rw [not_not] at c1
      rw [he, Add_snd_mode2 t k ls v now (by rw [c1]; rfl)]
      exact ⟨h1, coherent_writeShard _ _ _ h2⟩
  | cleanup now =>
    have he : applyOp t (CacheOp.cleanup now) = cleanupCycle t now := rfl
    rw [he, cleanupCycle_eq]
    exact ⟨coherent_foldl_writeShard _ _ _ (coherent_deleteItems _ _ _ h1),
      coherent_foldl_writeShard _ _ _ (coherent_deleteItems _ _ _ h2)⟩
  | rebuild now =>
    have he : applyOp t (CacheOp.rebuild now) = rebuildCycle t now := rfl
    rw [he, rebuildCycle_eq]
    exact ⟨coherent_map_rebuild _ _ h1, coherent_map_rebuild _ _ h2⟩

theorem keysCoherent_runOps (hash : κ → Nat) (shardNum : Nat)
    (ops : List (CacheOp κ δ)) :
    KeysCoherent (runOps (initTable hash shardNum) ops) := by
  suffices h : ∀ t : CacheTable κ δ, KeysCoherent t → KeysCoherent (runOps t ops) by
    refine h _ ⟨?_, ?_⟩ <;>
      (intro s hs p hp
       rw [List.eq_of_mem_replicate hs] at hp
       exact absurd hp (List.not_mem_nil p))
  induction ops with
  | nil => exact fun t ht => ht
  | cons op rest ih => exact fun t ht => ih _ (keysCoherent_applyOp t op ht)

theorem key_of_genFound (shards : List (Shard κ δ)) (i : Nat) (k : κ)
    (r : CacheItem κ δ)
    (hcoh : ∀ s ∈ shards, ∀ p ∈ s, (p : κ × CacheItem κ δ).2.key = p.1)
    (h : shardFind (shards.getD i []) k = some r) : r.key = k := by
  obtain ⟨p, hp, hpk, hpr⟩ := shardFind_eq_some _ _ _ h
  rcases getD_mem_or_nil shards i with hg | hg
  · rw [← hpr, ← hpk]
    exact hcoh _ hg p hp
  · rw [hg] at hp
    exact absurd hp (List.not_mem_nil p)

theorem value_key_matches (t : CacheTable κ δ) (k : κ) (r : CacheItem κ δ)
    (hc : KeysCoherent t) (h : t.Value k = ValueResult.ok r) : r.key = k := by
  obtain ⟨hc1, hc2⟩ := hc
  by_cases hm0 : t.switchMask = 0
  · rw [Value_mode0 t k hm0] at h
    cases hα : genFind t.L1Shards t.shardMask (t.hash k) k with
    | some q =>
      rw [hα] at h
      have hqr : q = r := by injection h
      exact hqr ▸ key_of_genFound t.L1Shards _ k q hc1 hα
    | none =>
      rw [hα] at h
      cases hβ : genFind t.L2Shards t.shardMask (t.hash k) k with
      | some q =>
        rw [hβ] at h
        have hqr : q = r := by injection h
        exact hqr ▸ key_of_genFound t.L2Shards _ k q hc2 hβ
      | none => rw [hβ] at h; cases h
  · by_cases hm2 : t.switchMask = 2
    · rw [Value_mode2 t k hm2] at h
      cases hβ : genFind t.L2Shards t.shardMask (t.hash k) k with
      | some q =>
        rw [hβ] at h
        have hqr : q = r := by injection h
        exact hqr ▸ key_of_genFound t.L2Shards _ k q hc2 hβ
      | none => rw [hβ] at h; cases h
    · rw [Value_modeOther t k hm0 hm2] at h
      cases hα : genFind t.L1Shards t.shardMask (t.hash k) k with
      | some q =>
        rw [hα] at h
        have hqr : q = r := by injection h
        exact hqr ▸ key_of_genFound t.L1Shards _ k q hc1 hα
      | none => rw [hα] at h; cases h

end Coherence

/-- C10: on any reachable table, Value never serves another key's item: when
it returns an item, that item's key field equals the queried key, even when
distinct keys hash to the same shard. -/
theorem value_returns_queried_key {κ δ : Type} [DecidableEq κ]
    (hash : κ → Nat) (shardNum : Nat) (ops : List (CacheOp κ δ))
    (k : κ) (r : CacheItem κ δ)
    (h : (runOps (initTable hash shardNum) ops).Value k = ValueResult.ok r) :
    r.key = k :=
  value_key_matches _ k r (keysCoherent_runOps hash shardNum ops) h

/-- C10 witness: with a constant hash function both keys 1 and 2 collide into
the one shard, and Value 1 still returns the item keyed 1. -/
theorem value_returns_queried_key_witness :
    (runOps (initTable (fun _ => 0) 1 : CacheTable Nat Nat)
        [CacheOp.add 1 5 77 0, CacheOp.add 2 5 88 0]).Value 1
      = ValueResult.ok (NewCacheItem (fun _ => 0) 1 5 77 0)
    ∧ (NewCacheItem (fun _ => 0) 1 5 77 0).key = 1 :=
  ⟨by decide, value_returns_queried_key (fun _ => 0) 1
      [CacheOp.add 1 5 77 0, CacheOp.add 2 5 88 0] 1 _ (by decide)⟩

end Cache2go
